import Mathlib

/-!
Shallow embedding of `src/steamlit.py` (PDF merger with form-field
preservation).  Python dictionaries (PyPDF2 `DictionaryObject`s, plain
dicts) are modelled as association lists with insertion-order-preserving
update; PDF object values are modelled opaquely as strings.  The PyPDF2
document-object model is abstracted: annotations are dictionaries stored
directly on pages, `PdfMerger.append` concatenates pages, and indirect
objects are already resolved.
-/

deriving instance DecidableEq for Except

namespace PdfMerger

/-- PDF object values, modelled opaquely. -/
abbrev Val := String

/-- A Python dictionary with string keys, as an association list. -/
abbrev Dict (α : Type) := List (String × α)

/-- `d.get(k)`: the value at the first entry with key `k`, if any. -/
def dget {α : Type} : Dict α → String → Option α
  | [], _ => none
  | kv :: rest, k => if kv.1 = k then some kv.2 else dget rest k

/-- `d[k] = v`: replace the value at the first entry with key `k`,
or append a fresh entry (Python dicts keep insertion position). -/
def dset {α : Type} : Dict α → String → α → Dict α
  | [], k, v => [(k, v)]
  | kv :: rest, k, v => if kv.1 = k then (k, v) :: rest else kv :: dset rest k v

/-- The keys of a dictionary, in order. -/
def dkeys {α : Type} (d : Dict α) : List String := d.map Prod.fst

/-- An annotation dictionary (a PyPDF2 `DictionaryObject`). -/
abbrev Annot := Dict Val

/-- The 10-key property dictionary built by `get_field_properties`;
values are `Option Val` because `dict.get` yields `None` for absent keys. -/
abbrev FieldProps := Dict (Option Val)

/-- The `fields` dictionary of `extract_fields_from_pdf`: field name to
property dictionary. -/
abbrev FieldMap := Dict FieldProps

/-- A PDF page: the non-annotation content (streams, resources — opaque to
this program) plus the optional `/Annots` array. -/
structure Page where
  body : String
  annots : Option (List Annot)
deriving DecidableEq

/-- A parsed PDF document as the program observes it through PyPDF2:
its pages and the result of `get_form_text_fields()` (text-field name to
value, the value possibly `None`). -/
structure PDF where
  pages : List Page
  formTextFields : Dict (Option Val)
deriving DecidableEq

/-- The key order of the dictionary literal in `get_field_properties`. -/
def propKeys : List String :=
  ["/T", "/V", "/FT", "/Ff", "/AP", "/AS", "/DA", "/F", "/Q", "/Rect"]

/-- `get_field_properties` (src/steamlit.py:13-34): the 10 listed
properties of an annotation, each `annotation.get(key)`. -/
def get_field_properties (annot : Annot) : FieldProps :=
  propKeys.map (fun k => (k, dget annot k))

/-- `str(annot.get('/T'))` as computed in the merge loop
(src/steamlit.py:120-123): a missing `/T` stringifies to `"None"`. -/
def annotName (annot : Annot) : String :=
  match dget annot "/T" with
  | some t => t
  | none => "None"

/-- Method 1 of `extract_fields_from_pdf` (src/steamlit.py:43-55) on one
page's annotation list: every annotation with a truthy `/T` is recorded
under its name. -/
def extractAnnotStep (fields : FieldMap) (a : Annot) : FieldMap :=
  match dget a "/T" with
  | some t => if t ≠ "" then dset fields t (get_field_properties a) else fields
  | none => fields

/-- The loop of method 1 over a page's annotation list. -/
def extractAnnots : FieldMap → List Annot → FieldMap
  | fields, [] => fields
  | fields, a :: rest => extractAnnots (extractAnnotStep fields a) rest

/-- Method 2 of `extract_fields_from_pdf` (src/steamlit.py:57-64): if
`get_form_text_fields()` is truthy (non-empty), record each text field not
already present with only its `/T` and `/V`. -/
def extractAcroFormLoop : FieldMap → Dict (Option Val) → FieldMap
  | fields, [] => fields
  | fields, kv :: rest =>
    extractAcroFormLoop
      (if (dget fields kv.1).isSome then fields
       else dset fields kv.1 [("/T", some kv.1), ("/V", kv.2)]) rest

/-- Method 2 with its truthiness guard: an empty
`get_form_text_fields()` dictionary is falsy and is skipped. -/
def extractAcroForm (ftf : Dict (Option Val)) (fields : FieldMap) : FieldMap :=
  if ftf ≠ [] then extractAcroFormLoop fields ftf else fields

/-- One iteration of the page loop of `extract_fields_from_pdf`. -/
def extractStep (ftf : Dict (Option Val)) (fields : FieldMap) (page : Page) : FieldMap :=
  extractAcroForm ftf
    (match page.annots with
     | some l => extractAnnots fields l
     | none => fields)

/-- The page loop of `extract_fields_from_pdf`. -/
def extractPages (ftf : Dict (Option Val)) : FieldMap → List Page → FieldMap
  | fields, [] => fields
  | fields, p :: rest => extractPages ftf (extractStep ftf fields p) rest

/-- `extract_fields_from_pdf` (src/steamlit.py:36-66). -/
def extract_fields_from_pdf (pdf : PDF) : FieldMap :=
  extractPages pdf.formTextFields [] pdf.pages

/-- The hard-coded `problematic_fields` dictionary (src/steamlit.py:82-87). -/
def problematic_fields : Dict Val :=
  [("Names and status of applicant if other than assessed owner", "Names_and_status"),
   ("Telephone No", "TelephoneNo"),
   ("Names_and_status_of_applicant",
    "Names and status of applicant if other than assessed owner"),
   ("Telephone_Number", "Telephone No")]

/-- Outcome of the `if/elif/elif/else` chain at src/steamlit.py:125-139:
either a property dictionary was selected, or the chain fell through
without assigning `field_props` (no `continue`), or the annotation is
skipped via `continue`. -/
inductive FindRes where
  | found (props : FieldProps)
  | fellThrough
  | skip
deriving DecidableEq

/-- The name-resolution chain of the merge loop (src/steamlit.py:125-139):
direct lookup in `all_fields`, then via the problematic-name mapping
(key to value), then via its reverse (first key whose value matches). -/
def findProps (af : FieldMap) (name : String) : FindRes :=
  match dget af name with
  | some p => .found p
  | none =>
    match dget problematic_fields name with
    | some alt =>
      match dget af alt with
      | some p => .found p
      | none => .fellThrough
    | none =>
      match List.find? (fun kv => kv.2 = name) problematic_fields with
      | some kv =>
        match dget af kv.1 with
        | some p => .found p
        | none => .fellThrough
      | none => .skip


/-- Decidable form of "the problematic-name mapping does not lead from
`name` (as a key) to a field present in `af`". -/
def noAltMatch (af : FieldMap) (name : String) : Bool :=
  match dget problematic_fields name with
  | some alt => (dget af alt).isNone
  | none => true

/-- Decidable form of "the reverse problematic-name mapping does not lead
from `name` (as a value) to a field present in `af`". -/
def noRevMatch (af : FieldMap) (name : String) : Bool :=
  match List.find? (fun kv => kv.2 = name) problematic_fields with
  | some kv => (dget af kv.1).isNone
  | none => true

/-- `for key, value in field_props.items(): if value is not None:
annot[key] = value` (src/steamlit.py:142-144). -/
def applyProps : FieldProps → Annot → Annot
  | [], a => a
  | kv :: rest, a =>
    match kv.2 with
    | some v => applyProps rest (dset a kv.1 v)
    | none => applyProps rest a

/-- `if annot.get('/Ff') is None: annot['/Ff'] = 0`
(src/steamlit.py:147-148); the numeric `0` is modelled as `"0"`. -/
def ensureFf (annot : Annot) : Annot :=
  if dget annot "/Ff" = none then dset annot "/Ff" "0" else annot

/-- One annotation of the merge loop.  The Python variable `field_props`
persists across iterations, so it is threaded as `Option FieldProps`
(`none` = not yet assigned); reaching the apply loop with it unassigned is
a `NameError`, modelled as `Except.error`. -/
def stepAnnot (af : FieldMap) (st : Option FieldProps) (a : Annot) :
    Except Unit (Annot × Option FieldProps) :=
  match findProps af (annotName a) with
  | .skip => .ok (a, st)
  | .found p => .ok (ensureFf (applyProps p a), some p)
  | .fellThrough =>
    match st with
    | none => .error ()
    | some p => .ok (ensureFf (applyProps p a), some p)

/-- The annotation loop over one page's `/Annots` (src/steamlit.py:116-148). -/
def stepAnnots (af : FieldMap) : Option FieldProps → List Annot →
    Except Unit (List Annot × Option FieldProps)
  | st, [] => .ok ([], st)
  | st, a :: rest =>
    match stepAnnot af st a with
    | .error e => .error e
    | .ok (a', st') =>
      match stepAnnots af st' rest with
      | .error e => .error e
      | .ok (rest', st'') => .ok (a' :: rest', st'')

/-- One page of the merge loop (src/steamlit.py:113-150): rewrite the
annotations when present, keep the rest of the page. -/
def stepPage (af : FieldMap) (st : Option FieldProps) (p : Page) :
    Except Unit (Page × Option FieldProps) :=
  match p.annots with
  | none => .ok (p, st)
  | some l =>
    match stepAnnots af st l with
    | .error e => .error e
    | .ok (l', st') => .ok ({ p with annots := some l' }, st')

/-- The page loop of `preserve_fields_and_merge_pdfs`. -/
def stepPages (af : FieldMap) : Option FieldProps → List Page →
    Except Unit (List Page × Option FieldProps)
  | st, [] => .ok ([], st)
  | st, p :: rest =>
    match stepPage af st p with
    | .error e => .error e
    | .ok (p', st') =>
      match stepPages af st' rest with
      | .error e => .error e
      | .ok (rest', st'') => .ok (p' :: rest', st'')

/-- `all_fields = {}; all_fields.update(d); all_fields.update(e)`:
later entries overwrite (src/steamlit.py:108-110). -/
def updateMap : FieldMap → FieldMap → FieldMap
  | d, [] => d
  | d, kv :: rest => updateMap (dset d kv.1 kv.2) rest

/-- The `all_fields` dictionary of `preserve_fields_and_merge_pdfs`:
first-PDF fields updated by second-PDF fields. -/
def allFields (first second : PDF) : FieldMap :=
  updateMap (updateMap [] (extract_fields_from_pdf first))
    (extract_fields_from_pdf second)

/-- `preserve_fields_and_merge_pdfs` (src/steamlit.py:68-166):
`PdfMerger` appends all pages of the first PDF then all pages of the
second; the merged document is re-read and its annotations rewritten from
`all_fields`.  The abstracted PyPDF2 merge keeps each page (and its
annotations) intact, and merges the AcroForm text fields by
concatenation. -/
def preserve_fields_and_merge_pdfs (first second : PDF) : Except Unit PDF :=
  match stepPages (allFields first second) none (first.pages ++ second.pages) with
  | .error e => .error e
  | .ok (pages', _) => .ok ⟨pages', first.formTextFields ++ second.formTextFields⟩

/-- `os.path.splitext(f)[0]`: drop the final extension, except that a
basename consisting only of dots before the last dot keeps the whole name
(CPython `genericpath._splitext`; directory separators cannot occur in
`os.listdir` entries). -/
def splitextRoot (f : String) : String :=
  let r := f.data.reverse
  match r.findIdx? (fun c => c = '.') with
  | none => f
  | some i =>
    let before := (r.drop (i + 1)).reverse
    if before.all (fun c => c = '.') then f else ⟨before⟩

/-- `f.endswith('.pdf')`, written structurally on the character list so
that it evaluates by kernel reduction. -/
def endsWithPdf (s : String) : Bool :=
  s.data.reverse.take 4 = ['f', 'd', 'p', '.']

/-- A file extracted from one of the uploaded archives: its name as listed
by `os.listdir`, its `os.path.getsize`, and the document PyPDF2 would
parse from it (`none` when `PdfReader` would raise). -/
structure NamedFile where
  fname : String
  size : Nat
  parsed : Option PDF
deriving DecidableEq

/-- The loop of the dict comprehension at src/steamlit.py:181-184: account
(`splitext` root) to file, for names ending in `'.pdf'`. -/
def buildPdfMapLoop : Dict NamedFile → List NamedFile → Dict NamedFile
  | d, [] => d
  | d, f :: rest =>
    buildPdfMapLoop (if endsWithPdf f.fname then dset d (splitextRoot f.fname) f else d) rest

/-- The dict comprehension at src/steamlit.py:181-184, from the empty
dictionary. -/
def buildPdfMap (files : List NamedFile) : Dict NamedFile :=
  buildPdfMapLoop [] files

/-- Lines 72-73 and onward of `preserve_fields_and_merge_pdfs`: reading
either PDF raises inside the `try` when the file does not parse; otherwise
the merge proper runs. -/
def readAndMerge (f s : NamedFile) : Except Unit PDF :=
  match f.parsed with
  | none => .error ()
  | some a =>
    match s.parsed with
    | none => .error ()
    | some b => preserve_fields_and_merge_pdfs a b

/-- The UI messages `merge_pdfs_by_account` can emit per account:
`st.warning` for an empty file (src/steamlit.py:207) and `st.error` for a
failed merge (src/steamlit.py:221). -/
inductive Msg where
  | emptyWarning (account : String)
  | mergeError (account : String)
deriving DecidableEq

/-- Observable outcome of `merge_pdfs_by_account`: the entries written to
the output zip (arcname and merged document) and the emitted messages. -/
structure MergeOut where
  entries : List (String × PDF)
  msgs : List Msg
deriving DecidableEq

/-- One iteration of the account loop (src/steamlit.py:195-221): skip
unmatched accounts; warn and skip empty files; on success add
`account + ".pdf"` to the zip; on exception emit an error and continue. -/
def processAccount (secondMap : Dict NamedFile) (acc : MergeOut)
    (kv : String × NamedFile) : MergeOut :=
  match dget secondMap kv.1 with
  | none => acc
  | some sfile =>
    if kv.2.size = 0 ∨ sfile.size = 0 then
      { acc with msgs := acc.msgs ++ [Msg.emptyWarning kv.1] }
    else
      match readAndMerge kv.2 sfile with
      | .ok merged => { acc with entries := acc.entries ++ [(kv.1 ++ ".pdf", merged)] }
      | .error _ => { acc with msgs := acc.msgs ++ [Msg.mergeError kv.1] }

/-- The account loop (`for account, first_pdf_path in first_pdfs.items()`). -/
def processAccounts (secondMap : Dict NamedFile) : MergeOut → Dict NamedFile → MergeOut
  | acc, [] => acc
  | acc, kv :: rest => processAccounts secondMap (processAccount secondMap acc kv) rest

/-- `merge_pdfs_by_account` (src/steamlit.py:168-228), with the two
archives given as their extracted file lists. -/
def merge_pdfs_by_account (firstFiles secondFiles : List NamedFile) : MergeOut :=
  processAccounts (buildPdfMap secondFiles) ⟨[], []⟩ (buildPdfMap firstFiles)

/-- The entry the account loop contributes for one `first_pdfs` item, if
any: present exactly when the account is matched, neither file is empty,
and the merge succeeds. -/
def successEntry (secondMap : Dict NamedFile) (kv : String × NamedFile) :
    Option (String × PDF) :=
  match dget secondMap kv.1 with
  | none => none
  | some sfile =>
    if kv.2.size = 0 ∨ sfile.size = 0 then none
    else
      match readAndMerge kv.2 sfile with
      | .ok m => some (kv.1 ++ ".pdf", m)
      | .error _ => none

/-- The message the account loop emits for one `first_pdfs` item, if any. -/
def accountMsg (secondMap : Dict NamedFile) (kv : String × NamedFile) :
    Option Msg :=
  match dget secondMap kv.1 with
  | none => none
  | some sfile =>
    if kv.2.size = 0 ∨ sfile.size = 0 then some (Msg.emptyWarning kv.1)
    else
      match readAndMerge kv.2 sfile with
      | .ok _ => none
      | .error _ => some (Msg.mergeError kv.1)

/-- Existence flags for the paths the program creates and removes. -/
structure FsState where
  firstTemp : Bool
  secondTemp : Bool
  firstZip : Bool
  secondZip : Bool
  outputZip : Bool
deriving DecidableEq

/-- The filesystem effects of `merge_pdfs_by_account`
(src/steamlit.py:168-228): `os.makedirs` creates both temp folders; the
body raises iff either archive fails to extract (`okA`/`okB`), creating
the output zip only when both extractions succeed; the `finally` block
removes both temp folders whether the body returned or raised. -/
def merge_pdfs_by_account_fs (okA okB : Bool) (s : FsState) :
    Except Unit Unit × FsState :=
  let made := { s with firstTemp := true, secondTemp := true }
  let afterBody :=
    if okA && okB then (Except.ok (), { made with outputZip := true })
    else (Except.error (), made)
  (afterBody.1, { afterBody.2 with firstTemp := false, secondTemp := false })

/-- The filesystem effects of `main` (src/steamlit.py:230-272): the two
uploads are saved, `merge_pdfs_by_account` runs inside `try/except`, and
the `finally` block removes each of the three zip files that exists. -/
def main_fs (okA okB : Bool) (s : FsState) : FsState :=
  let saved := { s with firstZip := true, secondZip := true }
  let afterMerge := (merge_pdfs_by_account_fs okA okB saved).2
  { afterMerge with firstZip := false, secondZip := false, outputZip := false }



/-- Concrete example documents and archives used by the evaluation
theorems below. -/
def exFirst : PDF := ⟨[⟨"p1", some [[("/T", "f1"), ("/V", "v1")]]⟩], []⟩

def exSecond : PDF := ⟨[], []⟩

def exFirstOut : PDF :=
  ⟨[⟨"p1", some [[("/T", "f1"), ("/V", "v1"), ("/Ff", "0")]]⟩], []⟩

def exBoth1 : PDF := ⟨[⟨"p1", some [[("/T", "n"), ("/V", "va")]]⟩], []⟩

def exBoth2 : PDF :=
  ⟨[⟨"p2", some [[("/T", "n"), ("/V", "vb"), ("/DA", "d2")]]⟩], []⟩

def exBothOut : PDF :=
  ⟨[⟨"p1", some [[("/T", "n"), ("/V", "vb"), ("/DA", "d2"), ("/Ff", "0")]]⟩,
    ⟨"p2", some [[("/T", "n"), ("/V", "vb"), ("/DA", "d2"), ("/Ff", "0")]]⟩],
   []⟩

def exLink : PDF := ⟨[⟨"p1", some [[("/Subtype", "/Link")]]⟩], []⟩

def exFilesA : List NamedFile :=
  [⟨"a.pdf", 1, none⟩, ⟨"b.pdf", 1, some exFirst⟩]

def exFilesB : List NamedFile :=
  [⟨"a.pdf", 1, some exSecond⟩, ⟨"b.pdf", 1, some exSecond⟩]

def exZeroA : List NamedFile := [⟨"z.pdf", 0, some exFirst⟩]

def exZeroB : List NamedFile := [⟨"z.pdf", 3, some exSecond⟩]


theorem dget_dset {α : Type} (d : Dict α) (k : String) (v : α) (k' : String) :
    dget (dset d k v) k' = if k' = k then some v else dget d k' := by
  induction d with
  | nil =>
    by_cases h' : k' = k
    · subst h'
      simp [dset, dget]
    · simp [dset, dget, h', Ne.symm h']
  | cons kv rest ih =>
    obtain ⟨k1, v1⟩ := kv
    by_cases h : k1 = k
    · subst h
      by_cases h' : k' = k1
      · subst h'
        simp [dset, dget]
      · simp [dset, dget, h', Ne.symm h']
    · by_cases h1 : k1 = k'
      · subst h1
        simp [dset, dget, h, Ne.symm h]
      · simp [dset, dget, h, h1, ih]

theorem dget_eq_none_iff {α : Type} (d : Dict α) (k : String) :
    dget d k = none ↔ k ∉ dkeys d := by
  induction d with
  | nil => simp [dget, dkeys]
  | cons kv rest ih =>
    by_cases h : kv.1 = k <;> simp_all [dget, dkeys, eq_comm]

theorem dget_isSome_iff {α : Type} (d : Dict α) (k : String) :
    (dget d k).isSome = true ↔ k ∈ dkeys d := by
  constructor
  · intro h
    by_contra hk
    rw [← dget_eq_none_iff] at hk
    rw [hk] at h
    simp at h
  · intro h
    rcases hd : dget d k with _ | v
    · exact absurd h ((dget_eq_none_iff d k).mp hd)
    · rfl

theorem dkeys_dset {α : Type} (d : Dict α) (k : String) (v : α) :
    dkeys (dset d k v) = if k ∈ dkeys d then dkeys d else dkeys d ++ [k] := by
  induction d with
  | nil => simp [dset, dkeys]
  | cons kv rest ih =>
    obtain ⟨k1, v1⟩ := kv
    by_cases h : k1 = k
    · subst h
      simp [dset, dkeys]
    · have ih' : List.map Prod.fst (dset rest k v) =
          if k ∈ List.map Prod.fst rest then List.map Prod.fst rest
          else List.map Prod.fst rest ++ [k] := by simpa [dkeys] using ih
      by_cases hm : k ∈ List.map Prod.fst rest
      · simp [dset, dkeys, h, ih', hm]
      · simp [dset, dkeys, h, ih', hm, Ne.symm h]

theorem dkeys_dset_nodup {α : Type} (d : Dict α) (k : String) (v : α)
    (h : (dkeys d).Nodup) : (dkeys (dset d k v)).Nodup := by
  rw [dkeys_dset]
  by_cases hm : k ∈ dkeys d
  · simpa [hm]
  · simpa [hm, List.nodup_append] using h

theorem dget_of_mem_nodup {α : Type} (d : Dict α) (kv : String × α) :
    (dkeys d).Nodup → kv ∈ d → dget d kv.1 = some kv.2 := by
  induction d with
  | nil =>
    intro _ hm
    cases hm
  | cons hd rest ih =>
    intro hnd hm
    have hnd2 : hd.1 ∉ List.map Prod.fst rest ∧ (List.map Prod.fst rest).Nodup := by
      simpa [dkeys] using hnd
    rcases List.mem_cons.mp hm with h | h
    · subst h
      simp [dget]
    · have hne : hd.1 ≠ kv.1 := by
        intro he
        have hmem : kv.1 ∈ List.map Prod.fst rest := List.mem_map_of_mem Prod.fst h
        rw [← he] at hmem
        exact hnd2.1 hmem
      simp only [dget, hne, if_neg, not_false_iff]
      exact ih (by simpa [dkeys] using hnd2.2) h

theorem dget_cons_self {α : Type} (k : String) (v : α) (rest : Dict α) :
    dget ((k, v) :: rest) k = some v := by
  simp [dget]

theorem dset_cons_self {α : Type} (k : String) (v1 v : α) (rest : Dict α) :
    dset ((k, v1) :: rest) k v = (k, v) :: rest := by
  simp [dset]

theorem dget_mem {α : Type} (d : Dict α) (k : String) (p : α) :
    dget d k = some p → (k, p) ∈ d := by
  induction d with
  | nil => intro h; cases h
  | cons kv rest ih =>
    obtain ⟨k1, v1⟩ := kv
    intro h
    by_cases hk : k1 = k
    · subst hk
      rw [dget_cons_self] at h
      cases h
      exact List.mem_cons_self _ _
    · simp only [dget, hk, if_neg, not_false_iff] at h
      exact List.mem_cons_of_mem _ (ih h)

theorem mem_dset {α : Type} (d : Dict α) (k : String) (v : α) (kv' : String × α) :
    kv' ∈ dset d k v → kv' ∈ d ∨ kv' = (k, v) := by
  induction d with
  | nil =>
    intro h
    right
    simpa [dset] using h
  | cons kv rest ih =>
    obtain ⟨k1, v1⟩ := kv
    intro h
    by_cases hk : k1 = k
    · subst hk
      rw [dset_cons_self] at h
      rcases List.mem_cons.mp h with h | h
      · right; exact h
      · left; exact List.mem_cons_of_mem _ h
    · simp only [dset, hk, if_neg, not_false_iff] at h
      rcases List.mem_cons.mp h with h | h
      · left
        rw [h]
        exact List.mem_cons_self _ _
      · rcases ih h with h' | h'
        · left; exact List.mem_cons_of_mem _ h'
        · right; exact h'

theorem dget_applyProps_notmem (props : FieldProps) (a : Annot) (k : String)
    (h : k ∉ dkeys props) : dget (applyProps props a) k = dget a k := by
  induction props generalizing a with
  | nil => rfl
  | cons kv rest ih =>
    have hk : kv.1 ≠ k := fun he => h (by simp [dkeys, he])
    have hr : k ∉ dkeys rest := fun hm => h (by simp [dkeys] at hm ⊢; exact Or.inr hm)
    cases hv : kv.2 with
    | none => simpa [applyProps, hv] using ih _ hr
    | some v =>
      simp only [applyProps, hv]
      rw [ih _ hr, dget_dset, if_neg (fun he => hk he.symm)]

theorem dget_applyProps_mem (props : FieldProps) (k : String) (v : Val) :
    (dkeys props).Nodup → dget props k = some (some v) →
    ∀ a : Annot, dget (applyProps props a) k = some v := by
  induction props with
  | nil => intro _ h; cases h
  | cons kv rest ih =>
    obtain ⟨k1, ov⟩ := kv
    intro hnd h a
    have hnd2 : k1 ∉ List.map Prod.fst rest ∧ (List.map Prod.fst rest).Nodup := by
      simpa [dkeys] using hnd
    by_cases hk : k1 = k
    · subst hk
      rw [dget_cons_self] at h
      injection h with h
      subst h
      simp only [applyProps]
      rw [dget_applyProps_notmem _ _ _ (by simpa [dkeys] using hnd2.1), dget_dset]
      rw [if_pos rfl]
    · simp only [dget, hk, if_neg, not_false_iff] at h
      cases hv : ov with
      | none =>
        simp only [applyProps, hv]
        exact ih (by simpa [dkeys] using hnd2.2) h a
      | some w =>
        simp only [applyProps, hv]
        exact ih (by simpa [dkeys] using hnd2.2) h (dset a k1 w)

theorem dget_ensureFf_of_some (a : Annot) (k : String) (v : Val)
    (h : dget a k = some v) : dget (ensureFf a) k = some v := by
  unfold ensureFf
  by_cases hf : dget a "/Ff" = none
  · rw [if_pos hf, dget_dset]
    by_cases hk : k = "/Ff"
    · rw [hk] at h
      rw [h] at hf
      cases hf
    · rw [if_neg hk]
      exact h
  · rw [if_neg hf]
    exact h

theorem stepAnnots_cons_ok (af : FieldMap) (st : Option FieldProps) (a : Annot)
    (rest : List Annot) (l' : List Annot) (st' : Option FieldProps)
    (h : stepAnnots af st (a :: rest) = .ok (l', st')) :
    ∃ a' st1 rest', stepAnnot af st a = .ok (a', st1) ∧
      stepAnnots af st1 rest = .ok (rest', st') ∧ l' = a' :: rest' := by
  cases ha : stepAnnot af st a with
  | error e =>
    simp only [stepAnnots, ha] at h
    exact Except.noConfusion h
  | ok pr =>
    obtain ⟨a', st1⟩ := pr
    cases hr : stepAnnots af st1 rest with
    | error e =>
      simp only [stepAnnots, ha, hr] at h
      exact Except.noConfusion h
    | ok qr =>
      obtain ⟨rest', st2⟩ := qr
      simp only [stepAnnots, ha, hr, Except.ok.injEq, Prod.mk.injEq] at h
      refine ⟨a', st1, rest', rfl, ?_, h.1.symm⟩
      rw [hr, h.2]

theorem stepAnnots_length (af : FieldMap) :
    ∀ (l : List Annot) (st : Option FieldProps) (l' : List Annot)
      (st' : Option FieldProps),
      stepAnnots af st l = .ok (l', st') → l'.length = l.length := by
  intro l
  induction l with
  | nil =>
    intro st l' st' h
    simp only [stepAnnots, Except.ok.injEq, Prod.mk.injEq] at h
    rw [← h.1]
  | cons a rest ih =>
    intro st l' st' h
    obtain ⟨a', st1, rest', _, hr, hl⟩ := stepAnnots_cons_ok af st a rest l' st' h
    subst hl
    simpa using ih st1 rest' st' hr

theorem stepAnnots_found (af : FieldMap) :
    ∀ (l : List Annot) (st : Option FieldProps) (l' : List Annot)
      (st' : Option FieldProps),
      stepAnnots af st l = .ok (l', st') →
      ∀ (j : Nat) (a : Annot) (p : FieldProps), l[j]? = some a →
        findProps af (annotName a) = .found p →
        l'[j]? = some (ensureFf (applyProps p a)) := by
  intro l
  induction l with
  | nil =>
    intro st l' st' _ j a p hj
    simp at hj
  | cons a0 rest ih =>
    intro st l' st' h j a p hj hfind
    obtain ⟨a', st1, rest', ha, hr, hl⟩ := stepAnnots_cons_ok af st a0 rest l' st' h
    subst hl
    cases j with
    | zero =>
      simp only [List.getElem?_cons_zero, Option.some_inj] at hj
      subst hj
      simp only [stepAnnot, hfind, Except.ok.injEq, Prod.mk.injEq] at ha
      simp [← ha.1]
    | succ j' =>
      simp only [List.getElem?_cons_succ] at hj ⊢
      exact ih st1 rest' st' hr j' a p hj hfind

theorem stepAnnots_skip (af : FieldMap) :
    ∀ (l : List Annot) (st : Option FieldProps) (l' : List Annot)
      (st' : Option FieldProps),
      stepAnnots af st l = .ok (l', st') →
      ∀ (j : Nat) (a : Annot), l[j]? = some a →
        findProps af (annotName a) = .skip →
        l'[j]? = some a := by
  intro l
  induction l with
  | nil =>
    intro st l' st' _ j a hj
    simp at hj
  | cons a0 rest ih =>
    intro st l' st' h j a hj hfind
    obtain ⟨a', st1, rest', ha, hr, hl⟩ := stepAnnots_cons_ok af st a0 rest l' st' h
    subst hl
    cases j with
    | zero =>
      simp only [List.getElem?_cons_zero, Option.some_inj] at hj
      subst hj
      simp only [stepAnnot, hfind, Except.ok.injEq, Prod.mk.injEq] at ha
      simp [← ha.1]
    | succ j' =>
      simp only [List.getElem?_cons_succ] at hj ⊢
      exact ih st1 rest' st' hr j' a hj hfind

theorem stepPage_cases (af : FieldMap) (st : Option FieldProps) (p p' : Page)
    (st' : Option FieldProps) (h : stepPage af st p = .ok (p', st')) :
    p'.body = p.body ∧
      ((p.annots = none ∧ p' = p) ∨
       (∃ l l' s2, p.annots = some l ∧ p'.annots = some l' ∧
          stepAnnots af st l = .ok (l', s2))) := by
  obtain ⟨body, annots⟩ := p
  cases annots with
  | none =>
    simp only [stepPage, Except.ok.injEq, Prod.mk.injEq] at h
    exact ⟨by rw [← h.1], Or.inl ⟨rfl, h.1.symm⟩⟩
  | some l =>
    simp only [stepPage] at h
    cases hs : stepAnnots af st l with
    | error e =>
      rw [hs] at h
      exact Except.noConfusion h
    | ok qr =>
      obtain ⟨l', s2⟩ := qr
      rw [hs] at h
      simp only [Except.ok.injEq, Prod.mk.injEq] at h
      exact ⟨by rw [← h.1], Or.inr ⟨l, l', s2, rfl, by rw [← h.1], hs⟩⟩

theorem stepPages_cons_ok (af : FieldMap) (st : Option FieldProps) (p : Page)
    (rest : List Page) (ps' : List Page) (st' : Option FieldProps)
    (h : stepPages af st (p :: rest) = .ok (ps', st')) :
    ∃ p' st1 rest', stepPage af st p = .ok (p', st1) ∧
      stepPages af st1 rest = .ok (rest', st') ∧ ps' = p' :: rest' := by
  cases hp : stepPage af st p with
  | error e =>
    simp only [stepPages, hp] at h
    exact Except.noConfusion h
  | ok pr =>
    obtain ⟨p', st1⟩ := pr
    cases hr : stepPages af st1 rest with
    | error e =>
      simp only [stepPages, hp, hr] at h
      exact Except.noConfusion h
    | ok qr =>
      obtain ⟨rest', st2⟩ := qr
      simp only [stepPages, hp, hr, Except.ok.injEq, Prod.mk.injEq] at h
      refine ⟨p', st1, rest', rfl, ?_, h.1.symm⟩
      rw [hr, h.2]

theorem stepPages_length (af : FieldMap) :
    ∀ (ps : List Page) (st : Option FieldProps) (ps' : List Page)
      (st' : Option FieldProps),
      stepPages af st ps = .ok (ps', st') → ps'.length = ps.length := by
  intro ps
  induction ps with
  | nil =>
    intro st ps' st' h
    simp only [stepPages, Except.ok.injEq, Prod.mk.injEq] at h
    rw [← h.1]
  | cons p rest ih =>
    intro st ps' st' h
    obtain ⟨p', st1, rest', _, hr, hl⟩ := stepPages_cons_ok af st p rest ps' st' h
    subst hl
    simpa using ih st1 rest' st' hr

theorem stepPages_idx (af : FieldMap) :
    ∀ (ps : List Page) (st : Option FieldProps) (ps' : List Page)
      (st₂ : Option FieldProps),
      stepPages af st ps = .ok (ps', st₂) →
      ∀ (i : Nat) (pIn : Page), ps[i]? = some pIn →
        ∃ pOut, ps'[i]? = some pOut ∧ pOut.body = pIn.body ∧
          ((pIn.annots = none ∧ pOut = pIn) ∨
           (∃ l l' s1 s2, pIn.annots = some l ∧ pOut.annots = some l' ∧
              stepAnnots af s1 l = .ok (l', s2))) := by
  intro ps
  induction ps with
  | nil =>
    intro st ps' st₂ _ i pIn hi
    simp at hi
  | cons p rest ih =>
    intro st ps' st₂ h i pIn hi
    obtain ⟨p', st1, rest', hp, hr, hl⟩ := stepPages_cons_ok af st p rest ps' st₂ h
    subst hl
    cases i with
    | zero =>
      simp only [List.getElem?_cons_zero, Option.some_inj] at hi
      cases hi
      rcases stepPage_cases af st p p' st1 hp with ⟨hbody, hcase⟩
      refine ⟨p', by simp, hbody, ?_⟩
      rcases hcase with h1 | ⟨l, l', s2, h1, h2, h3⟩
      · exact Or.inl h1
      · exact Or.inr ⟨l, l', st, s2, h1, h2, h3⟩
    | succ i' =>
      simp only [List.getElem?_cons_succ] at hi ⊢
      exact ih st1 rest' st₂ hr i' pIn hi

theorem preserve_ok_stepPages (first second out : PDF)
    (h : preserve_fields_and_merge_pdfs first second = .ok out) :
    ∃ st, stepPages (allFields first second) none (first.pages ++ second.pages) =
      .ok (out.pages, st) := by
  unfold preserve_fields_and_merge_pdfs at h
  cases hs : stepPages (allFields first second) none (first.pages ++ second.pages) with
  | error e =>
    rw [hs] at h
    exact Except.noConfusion h
  | ok pr =>
    obtain ⟨pages', st⟩ := pr
    rw [hs] at h
    simp only [Except.ok.injEq] at h
    refine ⟨st, ?_⟩
    rw [← h]

theorem extractAnnotStep_isSome (fs : FieldMap) (a : Annot) (k : String)
    (h : (dget fs k).isSome = true) :
    (dget (extractAnnotStep fs a) k).isSome = true := by
  unfold extractAnnotStep
  cases ht : dget a "/T" with
  | none => exact h
  | some t =>
    dsimp only
    by_cases he : t = ""
    · rw [if_neg (fun hc => hc he)]
      exact h
    · rw [if_pos he, dget_dset]
      by_cases hk : k = t
      · rw [if_pos hk]
        rfl
      · rw [if_neg hk]
        exact h

theorem extractAnnotStep_set (fs : FieldMap) (a : Annot) (t : String)
    (ht : dget a "/T" = some t) (hne : t ≠ "") :
    dget (extractAnnotStep fs a) t = some (get_field_properties a) := by
  unfold extractAnnotStep
  rw [ht]
  dsimp only
  rw [if_pos hne, dget_dset, if_pos rfl]

theorem extractAnnots_isSome (l : List Annot) :
    ∀ (fs : FieldMap) (k : String), (dget fs k).isSome = true →
      (dget (extractAnnots fs l) k).isSome = true := by
  induction l with
  | nil => intro fs k h; exact h
  | cons a rest ih =>
    intro fs k h
    exact ih (extractAnnotStep fs a) k (extractAnnotStep_isSome fs a k h)

theorem extractAnnots_mem (l : List Annot) :
    ∀ (fs : FieldMap) (a : Annot) (t : String), a ∈ l → dget a "/T" = some t →
      t ≠ "" → (dget (extractAnnots fs l) t).isSome = true := by
  induction l with
  | nil =>
    intro fs a t hm
    cases hm
  | cons a0 rest ih =>
    intro fs a t hm ht hne
    rcases List.mem_cons.mp hm with h | h
    · subst h
      show (dget (extractAnnots (extractAnnotStep fs a) rest) t).isSome = true
      apply extractAnnots_isSome
      rw [extractAnnotStep_set fs a t ht hne]
      rfl
    · exact ih (extractAnnotStep fs a0) a t h ht hne

theorem extractAcroFormLoop_isSome (e : Dict (Option Val)) :
    ∀ (fs : FieldMap) (k : String), (dget fs k).isSome = true →
      (dget (extractAcroFormLoop fs e) k).isSome = true := by
  induction e with
  | nil => intro fs k h; exact h
  | cons kv rest ih =>
    intro fs k h
    show (dget (extractAcroFormLoop
      (if (dget fs kv.1).isSome then fs
       else dset fs kv.1 [("/T", some kv.1), ("/V", kv.2)]) rest) k).isSome = true
    apply ih
    by_cases hs : (dget fs kv.1).isSome = true
    · rw [if_pos hs]
      exact h
    · rw [if_neg hs, dget_dset]
      by_cases hk : k = kv.1
      · rw [if_pos hk]
        rfl
      · rw [if_neg hk]
        exact h

theorem extractAcroForm_isSome (ftf : Dict (Option Val)) (fs : FieldMap)
    (k : String) (h : (dget fs k).isSome = true) :
    (dget (extractAcroForm ftf fs) k).isSome = true := by
  unfold extractAcroForm
  by_cases hne : ftf ≠ []
  · rw [if_pos hne]
    exact extractAcroFormLoop_isSome ftf fs k h
  · rw [if_neg hne]
    exact h

theorem extractStep_isSome (ftf : Dict (Option Val)) (fs : FieldMap) (p : Page)
    (k : String) (h : (dget fs k).isSome = true) :
    (dget (extractStep ftf fs p) k).isSome = true := by
  unfold extractStep
  cases hann : p.annots with
  | none => exact extractAcroForm_isSome ftf fs k h
  | some l => exact extractAcroForm_isSome ftf _ k (extractAnnots_isSome l fs k h)

theorem extractPages_isSome (ftf : Dict (Option Val)) (ps : List Page) :
    ∀ (fs : FieldMap) (k : String), (dget fs k).isSome = true →
      (dget (extractPages ftf fs ps) k).isSome = true := by
  induction ps with
  | nil => intro fs k h; exact h
  | cons p rest ih =>
    intro fs k h
    exact ih (extractStep ftf fs p) k (extractStep_isSome ftf fs p k h)

theorem extractPages_mem (ftf : Dict (Option Val)) (ps : List Page) :
    ∀ (fs : FieldMap) (p : Page) (l : List Annot) (a : Annot) (t : String),
      p ∈ ps → p.annots = some l → a ∈ l → dget a "/T" = some t → t ≠ "" →
      (dget (extractPages ftf fs ps) t).isSome = true := by
  induction ps with
  | nil =>
    intro fs p l a t hm
    cases hm
  | cons p0 rest ih =>
    intro fs p l a t hm hl ha ht hne
    rcases List.mem_cons.mp hm with h | h
    · subst h
      show (dget (extractPages ftf (extractStep ftf fs p) rest) t).isSome = true
      apply extractPages_isSome
      unfold extractStep
      rw [hl]
      exact extractAcroForm_isSome ftf _ t (extractAnnots_mem l fs a t ha ht hne)
    · exact ih (extractStep ftf fs p0) p l a t h hl ha ht hne

theorem extract_isSome_of_annot (pdf : PDF) (p : Page) (l : List Annot)
    (a : Annot) (t : String) (hp : p ∈ pdf.pages) (hl : p.annots = some l)
    (ha : a ∈ l) (ht : dget a "/T" = some t) (hne : t ≠ "") :
    (dget (extract_fields_from_pdf pdf) t).isSome = true :=
  extractPages_mem pdf.formTextFields pdf.pages [] p l a t hp hl ha ht hne

theorem updateMap_isSome_left (e : FieldMap) :
    ∀ (d : FieldMap) (k : String), (dget d k).isSome = true →
      (dget (updateMap d e) k).isSome = true := by
  induction e with
  | nil => intro d k h; exact h
  | cons kv rest ih =>
    intro d k h
    show (dget (updateMap (dset d kv.1 kv.2) rest) k).isSome = true
    apply ih
    rw [dget_dset]
    by_cases hk : k = kv.1
    · rw [if_pos hk]
      rfl
    · rw [if_neg hk]
      exact h

theorem updateMap_isSome_right (e : FieldMap) :
    ∀ (d : FieldMap) (k : String), (dget e k).isSome = true →
      (dget (updateMap d e) k).isSome = true := by
  induction e with
  | nil =>
    intro d k h
    simp [dget] at h
  | cons kv rest ih =>
    intro d k h
    by_cases hk : kv.1 = k
    · subst hk
      show (dget (updateMap (dset d kv.1 kv.2) rest) kv.1).isSome = true
      apply updateMap_isSome_left
      rw [dget_dset, if_pos rfl]
      rfl
    · simp only [dget, hk, if_neg, not_false_iff] at h
      show (dget (updateMap (dset d kv.1 kv.2) rest) k).isSome = true
      exact ih (dset d kv.1 kv.2) k h

theorem dget_updateMap_notmem (e : FieldMap) :
    ∀ (d : FieldMap) (k : String), k ∉ dkeys e →
      dget (updateMap d e) k = dget d k := by
  induction e with
  | nil => intro d k _; rfl
  | cons kv rest ih =>
    intro d k hk
    have h1 : kv.1 ≠ k := fun he => hk (by simp [dkeys, he])
    have h2 : k ∉ dkeys rest := fun hm => hk (by simp [dkeys] at hm ⊢; exact Or.inr hm)
    rw [show updateMap d (kv :: rest) = updateMap (dset d kv.1 kv.2) rest from rfl,
      ih (dset d kv.1 kv.2) k h2, dget_dset, if_neg (fun he => h1 he.symm)]

theorem dget_updateMap_of_mem (e : FieldMap) :
    ∀ (d : FieldMap) (k : String) (p : FieldProps), (dkeys e).Nodup →
      dget e k = some p → dget (updateMap d e) k = some p := by
  induction e with
  | nil =>
    intro d k p _ h
    cases h
  | cons kv rest ih =>
    intro d k p hnd h
    have hnd2 : kv.1 ∉ List.map Prod.fst rest ∧ (List.map Prod.fst rest).Nodup := by
      simpa [dkeys] using hnd
    by_cases hk : kv.1 = k
    · subst hk
      rw [dget_cons_self] at h
      cases h
      rw [show updateMap d ((kv.1, kv.2) :: rest) =
          updateMap (dset d kv.1 kv.2) rest from rfl,
        dget_updateMap_notmem rest _ kv.1 (by simpa [dkeys] using hnd2.1),
        dget_dset, if_pos rfl]
    · simp only [dget, hk, if_neg, not_false_iff] at h
      exact ih (dset d kv.1 kv.2) k p (by simpa [dkeys] using hnd2.2) h

theorem dkeys_get_field_properties (a : Annot) :
    dkeys (get_field_properties a) = propKeys := rfl

theorem propKeys_nodup : propKeys.Nodup := by decide

theorem extractAnnotStep_keys_nodup (fs : FieldMap) (a : Annot)
    (h : (dkeys fs).Nodup) : (dkeys (extractAnnotStep fs a)).Nodup := by
  unfold extractAnnotStep
  cases ht : dget a "/T" with
  | none => exact h
  | some t =>
    dsimp only
    by_cases he : t = ""
    · rw [if_neg (fun hc => hc he)]
      exact h
    · rw [if_pos he]
      exact dkeys_dset_nodup _ _ _ h

theorem extractAnnots_keys_nodup (l : List Annot) :
    ∀ fs : FieldMap, (dkeys fs).Nodup → (dkeys (extractAnnots fs l)).Nodup := by
  induction l with
  | nil => intro fs h; exact h
  | cons a rest ih =>
    intro fs h
    exact ih (extractAnnotStep fs a) (extractAnnotStep_keys_nodup fs a h)

theorem extractAcroFormLoop_keys_nodup (e : Dict (Option Val)) :
    ∀ fs : FieldMap, (dkeys fs).Nodup →
      (dkeys (extractAcroFormLoop fs e)).Nodup := by
  induction e with
  | nil => intro fs h; exact h
  | cons kv rest ih =>
    intro fs h
    show (dkeys (extractAcroFormLoop
      (if (dget fs kv.1).isSome then fs
       else dset fs kv.1 [("/T", some kv.1), ("/V", kv.2)]) rest)).Nodup
    apply ih
    by_cases hs : (dget fs kv.1).isSome = true
    · rw [if_pos hs]
      exact h
    · rw [if_neg hs]
      exact dkeys_dset_nodup _ _ _ h

theorem extractAcroForm_keys_nodup (ftf : Dict (Option Val)) (fs : FieldMap)
    (h : (dkeys fs).Nodup) : (dkeys (extractAcroForm ftf fs)).Nodup := by
  unfold extractAcroForm
  by_cases hne : ftf ≠ []
  · rw [if_pos hne]
    exact extractAcroFormLoop_keys_nodup ftf fs h
  · rw [if_neg hne]
    exact h

theorem extractStep_keys_nodup (ftf : Dict (Option Val)) (fs : FieldMap)
    (p : Page) (h : (dkeys fs).Nodup) :
    (dkeys (extractStep ftf fs p)).Nodup := by
  unfold extractStep
  cases hann : p.annots with
  | none => exact extractAcroForm_keys_nodup ftf fs h
  | some l => exact extractAcroForm_keys_nodup ftf _ (extractAnnots_keys_nodup l fs h)

theorem extractPages_keys_nodup (ftf : Dict (Option Val)) (ps : List Page) :
    ∀ fs : FieldMap, (dkeys fs).Nodup →
      (dkeys (extractPages ftf fs ps)).Nodup := by
  induction ps with
  | nil => intro fs h; exact h
  | cons p rest ih =>
    intro fs h
    exact ih (extractStep ftf fs p) (extractStep_keys_nodup ftf fs p h)

theorem extract_keys_nodup (pdf : PDF) :
    (dkeys (extract_fields_from_pdf pdf)).Nodup :=
  extractPages_keys_nodup pdf.formTextFields pdf.pages [] (by simp [dkeys])

theorem extractAnnotStep_vals (fs : FieldMap) (a : Annot)
    (h : ∀ kv ∈ fs, (dkeys kv.2).Nodup) :
    ∀ kv ∈ extractAnnotStep fs a, (dkeys kv.2).Nodup := by
  intro kv hm
  unfold extractAnnotStep at hm
  cases ht : dget a "/T" with
  | none =>
    rw [ht] at hm
    exact h kv hm
  | some t =>
    rw [ht] at hm
    dsimp only at hm
    by_cases he : t = ""
    · rw [if_neg (fun hc => hc he)] at hm
      exact h kv hm
    · rw [if_pos he] at hm
      rcases mem_dset _ _ _ _ hm with hm' | hm'
      · exact h kv hm'
      · rw [hm']
        show (dkeys (get_field_properties a)).Nodup
        rw [dkeys_get_field_properties]
        exact propKeys_nodup

theorem extractAnnots_vals (l : List Annot) :
    ∀ fs : FieldMap, (∀ kv ∈ fs, (dkeys kv.2).Nodup) →
      ∀ kv ∈ extractAnnots fs l, (dkeys kv.2).Nodup := by
  induction l with
  | nil => intro fs h; exact h
  | cons a rest ih =>
    intro fs h
    exact ih (extractAnnotStep fs a) (extractAnnotStep_vals fs a h)

theorem extractAcroFormLoop_vals (e : Dict (Option Val)) :
    ∀ fs : FieldMap, (∀ kv ∈ fs, (dkeys kv.2).Nodup) →
      ∀ kv ∈ extractAcroFormLoop fs e, (dkeys kv.2).Nodup := by
  induction e with
  | nil => intro fs h; exact h
  | cons kv0 rest ih =>
    intro fs h
    refine ih _ ?_
    intro kv1 hm1
    by_cases hs : (dget fs kv0.1).isSome = true
    · rw [if_pos hs] at hm1
      exact h kv1 hm1
    · rw [if_neg hs] at hm1
      rcases mem_dset _ _ _ _ hm1 with hm' | hm'
      · exact h kv1 hm'
      · rw [hm']
        show (["/T", "/V"] : List String).Nodup
        decide

theorem extractAcroForm_vals (ftf : Dict (Option Val)) (fs : FieldMap)
    (h : ∀ kv ∈ fs, (dkeys kv.2).Nodup) :
    ∀ kv ∈ extractAcroForm ftf fs, (dkeys kv.2).Nodup := by
  unfold extractAcroForm
  by_cases hne : ftf ≠ []
  · rw [if_pos hne]
    exact extractAcroFormLoop_vals ftf fs h
  · rw [if_neg hne]
    exact h

theorem extractStep_vals (ftf : Dict (Option Val)) (fs : FieldMap) (p : Page)
    (h : ∀ kv ∈ fs, (dkeys kv.2).Nodup) :
    ∀ kv ∈ extractStep ftf fs p, (dkeys kv.2).Nodup := by
  unfold extractStep
  cases hann : p.annots with
  | none => exact extractAcroForm_vals ftf fs h
  | some l => exact extractAcroForm_vals ftf _ (extractAnnots_vals l fs h)

theorem extractPages_vals (ftf : Dict (Option Val)) (ps : List Page) :
    ∀ fs : FieldMap, (∀ kv ∈ fs, (dkeys kv.2).Nodup) →
      ∀ kv ∈ extractPages ftf fs ps, (dkeys kv.2).Nodup := by
  induction ps with
  | nil => intro fs h; exact h
  | cons p rest ih =>
    intro fs h
    exact ih (extractStep ftf fs p) (extractStep_vals ftf fs p h)

theorem extract_vals (pdf : PDF) :
    ∀ kv ∈ extract_fields_from_pdf pdf, (dkeys kv.2).Nodup :=
  extractPages_vals pdf.formTextFields pdf.pages []
    (by intro kv hm; cases hm)

theorem updateMap_vals (e : FieldMap) :
    ∀ d : FieldMap, (∀ kv ∈ d, (dkeys kv.2).Nodup) →
      (∀ kv ∈ e, (dkeys kv.2).Nodup) →
      ∀ kv ∈ updateMap d e, (dkeys kv.2).Nodup := by
  induction e with
  | nil => intro d hd _; exact hd
  | cons kv0 rest ih =>
    intro d hd he
    refine ih (dset d kv0.1 kv0.2) ?_ ?_
    · intro kv1 hm1
      rcases mem_dset _ _ _ _ hm1 with hm' | hm'
      · exact hd kv1 hm'
      · rw [hm']
        exact he kv0 (List.mem_cons_self _ _)
    · intro kv1 hm1
      exact he kv1 (List.mem_cons_of_mem _ hm1)

theorem allFields_props_nodup (first second : PDF) (name : String)
    (props : FieldProps) (h : dget (allFields first second) name = some props) :
    (dkeys props).Nodup := by
  have hm := dget_mem _ _ _ h
  refine updateMap_vals _ _ ?_ (extract_vals second) (name, props) hm
  exact updateMap_vals _ _ (by intro kv hm'; cases hm') (extract_vals first)

theorem dget_allFields_right (first second : PDF) (name : String)
    (p : FieldProps) (h : dget (extract_fields_from_pdf second) name = some p) :
    dget (allFields first second) name = some p :=
  dget_updateMap_of_mem _ _ _ _ (extract_keys_nodup second) h

theorem allFields_isSome_left (first second : PDF) (k : String)
    (h : (dget (extract_fields_from_pdf first) k).isSome = true) :
    (dget (allFields first second) k).isSome = true :=
  updateMap_isSome_left _ _ _ (updateMap_isSome_right _ _ _ h)

theorem allFields_isSome_right (first second : PDF) (k : String)
    (h : (dget (extract_fields_from_pdf second) k).isSome = true) :
    (dget (allFields first second) k).isSome = true :=
  updateMap_isSome_right _ _ _ h

theorem buildPdfMapLoop_keys_nodup (files : List NamedFile) :
    ∀ d : Dict NamedFile, (dkeys d).Nodup →
      (dkeys (buildPdfMapLoop d files)).Nodup := by
  induction files with
  | nil => intro d h; exact h
  | cons f rest ih =>
    intro d h
    show (dkeys (buildPdfMapLoop
      (if endsWithPdf f.fname then dset d (splitextRoot f.fname) f else d)
      rest)).Nodup
    apply ih
    by_cases he : endsWithPdf f.fname = true
    · rw [if_pos he]
      exact dkeys_dset_nodup _ _ _ h
    · rw [if_neg he]
      exact h

theorem buildPdfMap_keys_nodup (files : List NamedFile) :
    (dkeys (buildPdfMap files)).Nodup :=
  buildPdfMapLoop_keys_nodup files [] (by simp [dkeys])

theorem buildPdfMapLoop_isSome (files : List NamedFile) :
    ∀ (d : Dict NamedFile) (a : String),
      (dget (buildPdfMapLoop d files) a).isSome = true ↔
        ((dget d a).isSome = true ∨
         ∃ f ∈ files, endsWithPdf f.fname = true ∧ splitextRoot f.fname = a) := by
  induction files with
  | nil =>
    intro d a
    simp [buildPdfMapLoop]
  | cons f rest ih =>
    intro d a
    show (dget (buildPdfMapLoop
      (if endsWithPdf f.fname then dset d (splitextRoot f.fname) f else d)
      rest) a).isSome = true ↔ _
    rw [ih]
    by_cases he : endsWithPdf f.fname = true
    · rw [if_pos he]
      constructor
      · rintro (hs | ⟨g, hg, h1, h2⟩)
        · rw [dget_dset] at hs
          by_cases ha : a = splitextRoot f.fname
          · exact Or.inr ⟨f, List.mem_cons_self _ _, he, ha.symm⟩
          · rw [if_neg ha] at hs
            exact Or.inl hs
        · exact Or.inr ⟨g, List.mem_cons_of_mem _ hg, h1, h2⟩
      · rintro (hs | ⟨g, hg, h1, h2⟩)
        · left
          rw [dget_dset]
          by_cases ha : a = splitextRoot f.fname
          · rw [if_pos ha]
            rfl
          · rw [if_neg ha]
            exact hs
        · rcases List.mem_cons.mp hg with hgf | hgrest
          · left
            subst hgf
            rw [← h2, dget_dset, if_pos rfl]
            rfl
          · right
            exact ⟨g, hgrest, h1, h2⟩
    · rw [if_neg he]
      constructor
      · rintro (hs | ⟨g, hg, h1, h2⟩)
        · exact Or.inl hs
        · exact Or.inr ⟨g, List.mem_cons_of_mem _ hg, h1, h2⟩
      · rintro (hs | ⟨g, hg, h1, h2⟩)
        · exact Or.inl hs
        · rcases List.mem_cons.mp hg with hgf | hgrest
          · subst hgf
            exact absurd h1 he
          · exact Or.inr ⟨g, hgrest, h1, h2⟩

theorem buildPdfMap_isSome (files : List NamedFile) (a : String) :
    (dget (buildPdfMap files) a).isSome = true ↔
      ∃ f ∈ files, endsWithPdf f.fname = true ∧ splitextRoot f.fname = a := by
  rw [buildPdfMap, buildPdfMapLoop_isSome]
  simp [dget]

theorem processAccount_entries (sm : Dict NamedFile) (acc : MergeOut)
    (kv : String × NamedFile) :
    (processAccount sm acc kv).entries =
      acc.entries ++ (successEntry sm kv).toList := by
  unfold processAccount successEntry
  cases hs : dget sm kv.1 with
  | none => simp
  | some sfile =>
    dsimp only
    by_cases hsz : kv.2.size = 0 ∨ sfile.size = 0
    · rw [if_pos hsz, if_pos hsz]
      simp
    · rw [if_neg hsz, if_neg hsz]
      cases hm : readAndMerge kv.2 sfile with
      | ok m => simp
      | error e => simp

theorem processAccount_msgs (sm : Dict NamedFile) (acc : MergeOut)
    (kv : String × NamedFile) :
    (processAccount sm acc kv).msgs =
      acc.msgs ++ (accountMsg sm kv).toList := by
  unfold processAccount accountMsg
  cases hs : dget sm kv.1 with
  | none => simp
  | some sfile =>
    dsimp only
    by_cases hsz : kv.2.size = 0 ∨ sfile.size = 0
    · rw [if_pos hsz, if_pos hsz]
      simp
    · rw [if_neg hsz, if_neg hsz]
      cases hm : readAndMerge kv.2 sfile with
      | ok m => simp
      | error e => simp

theorem processAccounts_entries (sm : Dict NamedFile) (fm : Dict NamedFile) :
    ∀ acc : MergeOut, (processAccounts sm acc fm).entries =
      acc.entries ++ fm.filterMap (successEntry sm) := by
  induction fm with
  | nil =>
    intro acc
    simp [processAccounts]
  | cons kv rest ih =>
    intro acc
    show (processAccounts sm (processAccount sm acc kv) rest).entries = _
    rw [ih, processAccount_entries, List.filterMap_cons]
    cases hs : successEntry sm kv with
    | none => simp
    | some e => simp

theorem processAccounts_msgs (sm : Dict NamedFile) (fm : Dict NamedFile) :
    ∀ acc : MergeOut, (processAccounts sm acc fm).msgs =
      acc.msgs ++ fm.filterMap (accountMsg sm) := by
  induction fm with
  | nil =>
    intro acc
    simp [processAccounts]
  | cons kv rest ih =>
    intro acc
    show (processAccounts sm (processAccount sm acc kv) rest).msgs = _
    rw [ih, processAccount_msgs, List.filterMap_cons]
    cases hs : accountMsg sm kv with
    | none => simp
    | some m => simp

theorem successEntry_some (sm : Dict NamedFile) (kv : String × NamedFile)
    (e : String × PDF) (h : successEntry sm kv = some e) :
    ∃ sfile, dget sm kv.1 = some sfile ∧ ¬(kv.2.size = 0 ∨ sfile.size = 0) ∧
      readAndMerge kv.2 sfile = .ok e.2 ∧ e.1 = kv.1 ++ ".pdf" := by
  unfold successEntry at h
  cases hs : dget sm kv.1 with
  | none =>
    rw [hs] at h
    cases h
  | some sfile =>
    rw [hs] at h
    dsimp only at h
    by_cases hsz : kv.2.size = 0 ∨ sfile.size = 0
    · rw [if_pos hsz] at h
      cases h
    · rw [if_neg hsz] at h
      cases hm : readAndMerge kv.2 sfile with
      | error er =>
        rw [hm] at h
        cases h
      | ok m =>
        rw [hm] at h
        injection h with h
        cases h
        exact ⟨sfile, rfl, hsz, by rw [hm], rfl⟩

theorem successEntry_of (sm : Dict NamedFile) (kv : String × NamedFile)
    (sfile : NamedFile) (m : PDF) (hs : dget sm kv.1 = some sfile)
    (hsz : ¬(kv.2.size = 0 ∨ sfile.size = 0))
    (hm : readAndMerge kv.2 sfile = .ok m) :
    successEntry sm kv = some (kv.1 ++ ".pdf", m) := by
  unfold successEntry
  rw [hs]
  dsimp only
  rw [if_neg hsz, hm]

theorem accountMsg_some (sm : Dict NamedFile) (kv : String × NamedFile)
    (msg : Msg) (h : accountMsg sm kv = some msg) :
    ∃ sfile, dget sm kv.1 = some sfile ∧
      (((kv.2.size = 0 ∨ sfile.size = 0) ∧ msg = .emptyWarning kv.1) ∨
       (¬(kv.2.size = 0 ∨ sfile.size = 0) ∧
        (∃ er, readAndMerge kv.2 sfile = .error er) ∧ msg = .mergeError kv.1)) := by
  unfold accountMsg at h
  cases hs : dget sm kv.1 with
  | none =>
    rw [hs] at h
    cases h
  | some sfile =>
    rw [hs] at h
    dsimp only at h
    by_cases hsz : kv.2.size = 0 ∨ sfile.size = 0
    · rw [if_pos hsz] at h
      injection h with h
      exact ⟨sfile, rfl, Or.inl ⟨hsz, h.symm⟩⟩
    · rw [if_neg hsz] at h
      cases hm : readAndMerge kv.2 sfile with
      | ok m =>
        rw [hm] at h
        cases h
      | error er =>
        rw [hm] at h
        injection h with h
        exact ⟨sfile, rfl, Or.inr ⟨hsz, ⟨er, hm⟩, h.symm⟩⟩

theorem accountMsg_warning_of (sm : Dict NamedFile) (kv : String × NamedFile)
    (sfile : NamedFile) (hs : dget sm kv.1 = some sfile)
    (hsz : kv.2.size = 0 ∨ sfile.size = 0) :
    accountMsg sm kv = some (.emptyWarning kv.1) := by
  unfold accountMsg
  rw [hs]
  dsimp only
  rw [if_pos hsz]

theorem accountMsg_error_of (sm : Dict NamedFile) (kv : String × NamedFile)
    (sfile : NamedFile) (er : Unit) (hs : dget sm kv.1 = some sfile)
    (hsz : ¬(kv.2.size = 0 ∨ sfile.size = 0))
    (hm : readAndMerge kv.2 sfile = .error er) :
    accountMsg sm kv = some (.mergeError kv.1) := by
  unfold accountMsg
  rw [hs]
  dsimp only
  rw [if_neg hsz, hm]

theorem string_append_cancel (a b s : String) (h : a ++ s = b ++ s) : a = b := by
  have hd : a.data ++ s.data = b.data ++ s.data := by
    have h2 := congrArg String.data h
    simpa [String.data_append] using h2
  exact String.ext (List.append_cancel_right hd)

theorem entries_names_nodup (sm : Dict NamedFile) (fm : Dict NamedFile) :
    (dkeys fm).Nodup →
      ((fm.filterMap (successEntry sm)).map Prod.fst).Nodup := by
  induction fm with
  | nil =>
    intro _
    simp
  | cons kv rest ih =>
    intro h
    have h2 : kv.1 ∉ List.map Prod.fst rest ∧ (List.map Prod.fst rest).Nodup := by
      simpa [dkeys] using h
    rw [List.filterMap_cons]
    cases hs : successEntry sm kv with
    | none => exact ih (by simpa [dkeys] using h2.2)
    | some e =>
      rw [List.map_cons, List.nodup_cons]
      refine ⟨?_, ih (by simpa [dkeys] using h2.2)⟩
      intro hmem
      obtain ⟨e', he', hee⟩ := List.mem_map.mp hmem
      obtain ⟨kv', hkv', hs'⟩ := List.mem_filterMap.mp he'
      obtain ⟨_, _, _, _, hshape⟩ := successEntry_some sm kv e hs
      obtain ⟨_, _, _, _, hshape'⟩ := successEntry_some sm kv' e' hs'
      have : kv'.1 = kv.1 := by
        apply string_append_cancel _ _ ".pdf"
        rw [← hshape, ← hshape', hee]
      exact h2.1 (this ▸ List.mem_map_of_mem Prod.fst hkv')

theorem merge_entries_iff (firstFiles secondFiles : List NamedFile)
    (name : String) (pdf : PDF) :
    (name, pdf) ∈ (merge_pdfs_by_account firstFiles secondFiles).entries ↔
      ∃ a f s, dget (buildPdfMap firstFiles) a = some f ∧
        dget (buildPdfMap secondFiles) a = some s ∧
        ¬(f.size = 0 ∨ s.size = 0) ∧
        readAndMerge f s = .ok pdf ∧ name = a ++ ".pdf" := by
  unfold merge_pdfs_by_account
  rw [processAccounts_entries]
  simp only [List.nil_append]
  rw [List.mem_filterMap]
  constructor
  · rintro ⟨kv, hkv, hs⟩
    obtain ⟨sfile, h1, h2, h3, h4⟩ := successEntry_some _ _ _ hs
    exact ⟨kv.1, kv.2, sfile,
      dget_of_mem_nodup _ _ (buildPdfMap_keys_nodup _) hkv, h1, h2, h3, h4⟩
  · rintro ⟨a, f, s, h1, h2, h3, h4, h5⟩
    refine ⟨(a, f), dget_mem _ _ _ h1, ?_⟩
    rw [h5]
    exact successEntry_of _ _ _ _ h2 h3 h4

theorem merge_msgs_iff (firstFiles secondFiles : List NamedFile) (msg : Msg) :
    msg ∈ (merge_pdfs_by_account firstFiles secondFiles).msgs ↔
      ∃ kv ∈ buildPdfMap firstFiles,
        accountMsg (buildPdfMap secondFiles) kv = some msg := by
  unfold merge_pdfs_by_account
  rw [processAccounts_msgs]
  simp only [List.nil_append]
  exact List.mem_filterMap

theorem merge_names_nodup (firstFiles secondFiles : List NamedFile) :
    ((merge_pdfs_by_account firstFiles secondFiles).entries.map Prod.fst).Nodup := by
  unfold merge_pdfs_by_account
  rw [processAccounts_entries]
  simp only [List.nil_append]
  exact entries_names_nodup _ _ (buildPdfMap_keys_nodup _)

theorem merged_annot_name_isSome (first second : PDF) (pIn : Page)
    (lIn : List Annot) (aIn : Annot) (t : String)
    (hp : pIn ∈ first.pages ++ second.pages) (hl : pIn.annots = some lIn)
    (ha : aIn ∈ lIn) (ht : dget aIn "/T" = some t) (hne : t ≠ "") :
    (dget (allFields first second) t).isSome = true := by
  rcases List.mem_append.mp hp with h | h
  · exact allFields_isSome_left _ _ _
      (extract_isSome_of_annot first pIn lIn aIn t h hl ha ht hne)
  · exact allFields_isSome_right _ _ _
      (extract_isSome_of_annot second pIn lIn aIn t h hl ha ht hne)

theorem findProps_found_of_dget (af : FieldMap) (name : String)
    (p : FieldProps) (h : dget af name = some p) :
    findProps af name = .found p := by
  unfold findProps
  rw [h]

/-- C1: for every matched pair of source PDFs, after merging, every
annotation in the merged document whose computed field name (`/T`) equals
the name of a field extracted from either source PDF (the combined
`all_fields` dictionary, second source taking precedence per C6) has each
non-None property among /T, /V, /FT, /Ff, /AP, /AS, /DA, /F, /Q and /Rect
of that extracted field copied onto it. -/
theorem C1_field_properties_carried (first second out : PDF)
    (hok : preserve_fields_and_merge_pdfs first second = .ok out)
    (i j : Nat) (pIn pOut : Page) (lIn lOut : List Annot) (aIn aOut : Annot)
    (hpIn : (first.pages ++ second.pages)[i]? = some pIn)
    (hpOut : out.pages[i]? = some pOut)
    (hlIn : pIn.annots = some lIn) (hlOut : pOut.annots = some lOut)
    (haIn : lIn[j]? = some aIn) (haOut : lOut[j]? = some aOut)
    (props : FieldProps)
    (hname : dget (allFields first second) (annotName aIn) = some props)
    (k : String) (v : Val) (hk : dget props k = some (some v)) :
    dget aOut k = some v := by
  obtain ⟨st, hsteps⟩ := preserve_ok_stepPages first second out hok
  obtain ⟨pOut2, hpOut2, hbody, hcase⟩ := stepPages_idx _ _ _ _ _ hsteps i pIn hpIn
  rw [hpOut] at hpOut2
  injection hpOut2 with hpe
  subst hpe
  rcases hcase with ⟨hnone, _⟩ | ⟨l, l', s1, s2, h1, h2, h3⟩
  · rw [hnone] at hlIn
    cases hlIn
  · rw [hlIn] at h1
    injection h1 with h1
    subst h1
    rw [hlOut] at h2
    injection h2 with h2
    subst h2
    have hfound := findProps_found_of_dget _ _ _ hname
    have hj := stepAnnots_found _ _ _ _ _ h3 j aIn props haIn hfound
    rw [haOut] at hj
    injection hj with hj
    rw [hj]
    exact dget_ensureFf_of_some _ _ _
      (dget_applyProps_mem props k v
        (allFields_props_nodup first second (annotName aIn) props hname) hk aIn)

/-- C3: for every matched pair, the merged output consists of all pages of
the first PDF followed by all pages of the second, in order: the page
count adds up and the page bodies (everything except the rewritten
annotations) are the concatenation of the sources' page bodies. -/
theorem C3_pages_concatenated (first second out : PDF)
    (hok : preserve_fields_and_merge_pdfs first second = .ok out) :
    out.pages.length = first.pages.length + second.pages.length ∧
    out.pages.map Page.body =
      first.pages.map Page.body ++ second.pages.map Page.body := by
  obtain ⟨st, hsteps⟩ := preserve_ok_stepPages first second out hok
  have hlen := stepPages_length _ _ _ _ _ hsteps
  have hmap : out.pages.map Page.body = (first.pages ++ second.pages).map Page.body := by
    apply List.ext_getElem?
    intro n
    rw [List.getElem?_map, List.getElem?_map]
    cases hn : (first.pages ++ second.pages)[n]? with
    | none =>
      have h1 := List.getElem?_eq_none_iff.mp hn
      have h2 : out.pages[n]? = none := by
        rw [List.getElem?_eq_none_iff, hlen]
        exact h1
      rw [h2]
    | some pIn =>
      obtain ⟨pOut, hpo, hbody, _⟩ := stepPages_idx _ _ _ _ _ hsteps n pIn hn
      rw [hpo]
      simp [hbody]
  constructor
  · rw [hlen]
    simp
  · rw [hmap, List.map_append]

/-- C6: when both source PDFs define a form field with the same name, the
properties applied to a matching annotation of the merged output are the
second PDF's (the second archive's values take precedence), because
`all_fields.update(second_fields)` overwrites the first PDF's entry. -/
theorem C6_second_pdf_precedence (first second out : PDF)
    (hok : preserve_fields_and_merge_pdfs first second = .ok out)
    (i j : Nat) (pIn pOut : Page) (lIn lOut : List Annot) (aIn aOut : Annot)
    (hpIn : (first.pages ++ second.pages)[i]? = some pIn)
    (hpOut : out.pages[i]? = some pOut)
    (hlIn : pIn.annots = some lIn) (hlOut : pOut.annots = some lOut)
    (haIn : lIn[j]? = some aIn) (haOut : lOut[j]? = some aOut)
    (p1 p2 : FieldProps)
    (h1 : dget (extract_fields_from_pdf first) (annotName aIn) = some p1)
    (h2 : dget (extract_fields_from_pdf second) (annotName aIn) = some p2) :
    aOut = ensureFf (applyProps p2 aIn) := by
  obtain ⟨st, hsteps⟩ := preserve_ok_stepPages first second out hok
  obtain ⟨pOut2, hpOut2, hbody, hcase⟩ := stepPages_idx _ _ _ _ _ hsteps i pIn hpIn
  rw [hpOut] at hpOut2
  injection hpOut2 with hpe
  subst hpe
  rcases hcase with ⟨hnone, _⟩ | ⟨l, l', s1, s2, hh1, hh2, hh3⟩
  · rw [hnone] at hlIn
    cases hlIn
  · rw [hlIn] at hh1
    injection hh1 with hh1
    subst hh1
    rw [hlOut] at hh2
    injection hh2 with hh2
    subst hh2
    have haf : dget (allFields first second) (annotName aIn) = some p2 :=
      dget_allFields_right first second _ p2 h2
    have hfound := findProps_found_of_dget _ _ _ haf
    have hj := stepAnnots_found _ _ _ _ _ hh3 j aIn p2 haIn hfound
    rw [haOut] at hj
    exact Option.some_injective _ hj

/-- C7: an annotation of the merged document whose computed field name
matches no extracted field, neither directly nor through the hard-coded
problematic-name mapping in either direction, is left unchanged — no
properties of an unrelated field are applied to it. -/
theorem C7_unmatched_annotation_unchanged (first second out : PDF)
    (hok : preserve_fields_and_merge_pdfs first second = .ok out)
    (i j : Nat) (pIn pOut : Page) (lIn lOut : List Annot) (aIn aOut : Annot)
    (hpIn : (first.pages ++ second.pages)[i]? = some pIn)
    (hpOut : out.pages[i]? = some pOut)
    (hlIn : pIn.annots = some lIn) (hlOut : pOut.annots = some lOut)
    (haIn : lIn[j]? = some aIn) (haOut : lOut[j]? = some aOut)
    (hdirect : dget (allFields first second) (annotName aIn) = none)
    (halt : noAltMatch (allFields first second) (annotName aIn) = true)
    (hrev : noRevMatch (allFields first second) (annotName aIn) = true) :
    aOut = aIn := by
  obtain ⟨st, hsteps⟩ := preserve_ok_stepPages first second out hok
  obtain ⟨pOut2, hpOut2, hbody, hcase⟩ := stepPages_idx _ _ _ _ _ hsteps i pIn hpIn
  rw [hpOut] at hpOut2
  injection hpOut2 with hpe
  subst hpe
  rcases hcase with ⟨hnone, _⟩ | ⟨l, l', s1, s2, hh1, hh2, hh3⟩
  · rw [hnone] at hlIn
    cases hlIn
  · rw [hlIn] at hh1
    injection hh1 with hh1
    subst hh1
    rw [hlOut] at hh2
    injection hh2 with hh2
    subst hh2
    have hpmem : pIn ∈ first.pages ++ second.pages := List.getElem?_mem hpIn
    have hamem : aIn ∈ lIn := List.getElem?_mem haIn
    have hreach : ∀ t, dget aIn "/T" = some t → t ≠ "" →
        (dget (allFields first second) t).isSome = true := fun t ht hne =>
      merged_annot_name_isSome first second pIn lIn aIn t hpmem hlIn hamem ht hne
    have hnotprob : ∀ t : String, annotName aIn = t → t ≠ "None" → t ≠ "" → False := by
      intro t hat hnone hempty
      have ht : dget aIn "/T" = some t := by
        unfold annotName at hat
        cases hT : dget aIn "/T" with
        | none =>
          rw [hT] at hat
          dsimp only at hat
          exact absurd hat.symm hnone
        | some u =>
          rw [hT] at hat
          dsimp only at hat
          rw [hat]
      have := hreach t ht hempty
      rw [← hat] at this
      rw [hdirect] at this
      cases this
    have hskip : findProps (allFields first second) (annotName aIn) = .skip := by
      unfold findProps
      rw [hdirect]
      cases hpk : dget problematic_fields (annotName aIn) with
      | some alt =>
        exfalso
        have hmem := dget_mem _ _ _ hpk
        simp only [problematic_fields, List.mem_cons, List.mem_singleton,
          Prod.mk.injEq, List.not_mem_nil, or_false] at hmem
        rcases hmem with ⟨h, _⟩ | ⟨h, _⟩ | ⟨h, _⟩ | ⟨h, _⟩ <;>
          exact hnotprob _ h (by decide) (by decide)
      | none =>
        cases hfind : List.find? (fun kv => kv.2 = annotName aIn) problematic_fields with
        | some kv =>
          exfalso
          have hkvmem := List.mem_of_find?_eq_some hfind
          have hkv2 : kv.2 = annotName aIn := by
            have h5 := List.find?_some hfind
            simpa using h5
          simp only [problematic_fields, List.mem_cons, List.mem_singleton,
            List.not_mem_nil, or_false] at hkvmem
          rcases hkvmem with h | h | h | h <;>
            (subst h; exact hnotprob _ hkv2.symm (by decide) (by decide))
        | none => rfl
    have hj := stepAnnots_skip _ _ _ _ _ hh3 j aIn haIn hskip
    rw [haOut] at hj
    exact Option.some_injective _ hj

/-- C2: `merge_pdfs_by_account` reaches the per-pair processing (observable
as a warning, a merge error, or an output entry) exactly for the account
identifiers (`splitext` roots of names ending in `.pdf`) present in both
extracted archives; a file whose name occurs in only one archive produces
no merged output. -/
theorem C2_match_in_both_archives (firstFiles secondFiles : List NamedFile)
    (a : String) :
    (((∃ f ∈ firstFiles, endsWithPdf f.fname = true ∧ splitextRoot f.fname = a) ∧
      (∃ s ∈ secondFiles, endsWithPdf s.fname = true ∧ splitextRoot s.fname = a)) ↔
     (Msg.emptyWarning a ∈ (merge_pdfs_by_account firstFiles secondFiles).msgs ∨
      Msg.mergeError a ∈ (merge_pdfs_by_account firstFiles secondFiles).msgs ∨
      ∃ pdf, (a ++ ".pdf", pdf) ∈
        (merge_pdfs_by_account firstFiles secondFiles).entries)) ∧
    (¬((∃ f ∈ firstFiles, endsWithPdf f.fname = true ∧ splitextRoot f.fname = a) ∧
       (∃ s ∈ secondFiles, endsWithPdf s.fname = true ∧ splitextRoot s.fname = a)) →
      ∀ pdf, (a ++ ".pdf", pdf) ∉
        (merge_pdfs_by_account firstFiles secondFiles).entries) := by
  have hiff : ((∃ f ∈ firstFiles, endsWithPdf f.fname = true ∧
        splitextRoot f.fname = a) ∧
      (∃ s ∈ secondFiles, endsWithPdf s.fname = true ∧
        splitextRoot s.fname = a)) ↔
      (Msg.emptyWarning a ∈ (merge_pdfs_by_account firstFiles secondFiles).msgs ∨
       Msg.mergeError a ∈ (merge_pdfs_by_account firstFiles secondFiles).msgs ∨
       ∃ pdf, (a ++ ".pdf", pdf) ∈
         (merge_pdfs_by_account firstFiles secondFiles).entries) := by
    constructor
    · rintro ⟨hfirst, hsecond⟩
      obtain ⟨f, hfm⟩ := Option.isSome_iff_exists.mp
        ((buildPdfMap_isSome firstFiles a).mpr hfirst)
      obtain ⟨sfile, hsm⟩ := Option.isSome_iff_exists.mp
        ((buildPdfMap_isSome secondFiles a).mpr hsecond)
      by_cases hsz : f.size = 0 ∨ sfile.size = 0
      · left
        exact (merge_msgs_iff _ _ _).mpr
          ⟨(a, f), dget_mem _ _ _ hfm, accountMsg_warning_of _ _ _ hsm hsz⟩
      · cases hm : readAndMerge f sfile with
        | ok m =>
          right
          right
          exact ⟨m, (merge_entries_iff _ _ _ _).mpr
            ⟨a, f, sfile, hfm, hsm, hsz, hm, rfl⟩⟩
        | error er =>
          right
          left
          exact (merge_msgs_iff _ _ _).mpr
            ⟨(a, f), dget_mem _ _ _ hfm, accountMsg_error_of _ _ _ er hsm hsz hm⟩
    · rintro (hmsg | hmsg | ⟨pdf, hent⟩)
      · obtain ⟨kv, hkv, hmsgkv⟩ := (merge_msgs_iff _ _ _).mp hmsg
        obtain ⟨sfile, hsm, hshape⟩ := accountMsg_some _ _ _ hmsgkv
        have hka : kv.1 = a := by
          rcases hshape with ⟨_, heq⟩ | ⟨_, _, heq⟩
          · injection heq with heq
            exact heq.symm
          · exact Msg.noConfusion heq
        subst hka
        refine ⟨(buildPdfMap_isSome firstFiles kv.1).mp ?_,
          (buildPdfMap_isSome secondFiles kv.1).mp ?_⟩
        · rw [dget_of_mem_nodup _ _ (buildPdfMap_keys_nodup _) hkv]
          rfl
        · rw [hsm]
          rfl
      · obtain ⟨kv, hkv, hmsgkv⟩ := (merge_msgs_iff _ _ _).mp hmsg
        obtain ⟨sfile, hsm, hshape⟩ := accountMsg_some _ _ _ hmsgkv
        have hka : kv.1 = a := by
          rcases hshape with ⟨_, heq⟩ | ⟨_, _, heq⟩
          · exact Msg.noConfusion heq
          · injection heq with heq
            exact heq.symm
        subst hka
        refine ⟨(buildPdfMap_isSome firstFiles kv.1).mp ?_,
          (buildPdfMap_isSome secondFiles kv.1).mp ?_⟩
        · rw [dget_of_mem_nodup _ _ (buildPdfMap_keys_nodup _) hkv]
          rfl
        · rw [hsm]
          rfl
      · obtain ⟨a2, f, sfile, hfm, hsm, _, _, hname⟩ :=
          (merge_entries_iff _ _ _ _).mp hent
        have ha2 : a2 = a := (string_append_cancel _ _ _ hname.symm)
        subst ha2
        refine ⟨(buildPdfMap_isSome firstFiles a2).mp ?_,
          (buildPdfMap_isSome secondFiles a2).mp ?_⟩
        · rw [hfm]
          rfl
        · rw [hsm]
          rfl
  refine ⟨hiff, fun hnot pdf hent => hnot (hiff.mpr (Or.inr (Or.inr ⟨pdf, hent⟩)))⟩

/-- C4: the output archive contains exactly one entry, named
`account ++ ".pdf"`, for each matched pair whose merge succeeded (matched
account, both files non-empty, merge returned normally), and no other
entries; entry names are pairwise distinct. -/
theorem C4_output_archive_entries (firstFiles secondFiles : List NamedFile) :
    ((merge_pdfs_by_account firstFiles secondFiles).entries.map Prod.fst).Nodup ∧
    ∀ (name : String) (pdf : PDF),
      (name, pdf) ∈ (merge_pdfs_by_account firstFiles secondFiles).entries ↔
        ∃ a f s, dget (buildPdfMap firstFiles) a = some f ∧
          dget (buildPdfMap secondFiles) a = some s ∧
          ¬(f.size = 0 ∨ s.size = 0) ∧
          readAndMerge f s = .ok pdf ∧ name = a ++ ".pdf" :=
  ⟨merge_names_nodup firstFiles secondFiles,
   fun name pdf => merge_entries_iff firstFiles secondFiles name pdf⟩

/-- C5: if merging one matched pair raises, `merge_pdfs_by_account` emits
an error message for that account, adds no entry for it to the output
archive, and still produces the entry of every other matched pair whose
merge succeeds. -/
theorem C5_error_isolated_and_loop_continues
    (firstFiles secondFiles : List NamedFile) (a : String) (f s : NamedFile)
    (hf : dget (buildPdfMap firstFiles) a = some f)
    (hs : dget (buildPdfMap secondFiles) a = some s)
    (hsz : ¬(f.size = 0 ∨ s.size = 0))
    (herr : readAndMerge f s = .error ()) :
    Msg.mergeError a ∈ (merge_pdfs_by_account firstFiles secondFiles).msgs ∧
    (∀ pdf, (a ++ ".pdf", pdf) ∉
      (merge_pdfs_by_account firstFiles secondFiles).entries) ∧
    ∀ (b : String) (g t : NamedFile) (m : PDF), b ≠ a →
      dget (buildPdfMap firstFiles) b = some g →
      dget (buildPdfMap secondFiles) b = some t →
      ¬(g.size = 0 ∨ t.size = 0) → readAndMerge g t = .ok m →
      (b ++ ".pdf", m) ∈ (merge_pdfs_by_account firstFiles secondFiles).entries := by
  refine ⟨?_, ?_, ?_⟩
  · exact (merge_msgs_iff _ _ _).mpr
      ⟨(a, f), dget_mem _ _ _ hf, accountMsg_error_of _ _ _ () hs hsz herr⟩
  · intro pdf hent
    obtain ⟨a2, f2, s2, hf2, hs2, hsz2, hok2, hname⟩ :=
      (merge_entries_iff _ _ _ _).mp hent
    have ha2 : a2 = a := string_append_cancel _ _ _ hname.symm
    subst ha2
    rw [hf] at hf2
    injection hf2 with hf2
    rw [hs] at hs2
    injection hs2 with hs2
    rw [← hf2, ← hs2, herr] at hok2
    cases hok2
  · intro b g t m _ hg ht hszb hok
    exact (merge_entries_iff _ _ _ _).mpr ⟨b, g, t, hg, ht, hszb, hok, rfl⟩

/-- C8: for a matched pair in which at least one file has size zero,
`merge_pdfs_by_account` emits the empty-file warning for the account,
attempts no merge (so no merge-error message can arise for it), and adds
no entry for it to the output archive. -/
theorem C8_empty_file_warned_and_skipped
    (firstFiles secondFiles : List NamedFile) (a : String) (f s : NamedFile)
    (hf : dget (buildPdfMap firstFiles) a = some f)
    (hs : dget (buildPdfMap secondFiles) a = some s)
    (hsz : f.size = 0 ∨ s.size = 0) :
    Msg.emptyWarning a ∈ (merge_pdfs_by_account firstFiles secondFiles).msgs ∧
    Msg.mergeError a ∉ (merge_pdfs_by_account firstFiles secondFiles).msgs ∧
    ∀ pdf, (a ++ ".pdf", pdf) ∉
      (merge_pdfs_by_account firstFiles secondFiles).entries := by
  refine ⟨?_, ?_, ?_⟩
  · exact (merge_msgs_iff _ _ _).mpr
      ⟨(a, f), dget_mem _ _ _ hf, accountMsg_warning_of _ _ _ hs hsz⟩
  · intro hmsg
    obtain ⟨kv, hkv, hmsgkv⟩ := (merge_msgs_iff _ _ _).mp hmsg
    obtain ⟨sfile, hsm, hshape⟩ := accountMsg_some _ _ _ hmsgkv
    rcases hshape with ⟨_, heq⟩ | ⟨hsz2, _, heq⟩
    · exact Msg.noConfusion heq
    · have hka : kv.1 = a := by
        injection heq with heq
        exact heq.symm
      have hkva := dget_of_mem_nodup _ _ (buildPdfMap_keys_nodup firstFiles) hkv
      rw [hka] at hkva hsm
      rw [hf] at hkva
      injection hkva with hkva
      rw [hs] at hsm
      injection hsm with hsm
      rw [hkva, hsm] at hsz
      exact hsz2 hsz
  · intro pdf hent
    obtain ⟨a2, f2, s2, hf2, hs2, hsz2, _, hname⟩ :=
      (merge_entries_iff _ _ _ _).mp hent
    have ha2 : a2 = a := string_append_cancel _ _ _ hname.symm
    subst ha2
    rw [hf] at hf2
    injection hf2 with hf2
    rw [hs] at hs2
    injection hs2 with hs2
    rw [hf2, hs2] at hsz
    exact hsz2 hsz

/-- C9: the program keeps no persistent state: whether the body of
`merge_pdfs_by_account` returns or raises, both temporary extraction
folders are removed by its `finally` block, and `main` additionally
removes the uploaded and output zip files after each run. -/
theorem C9_no_persistent_state (okA okB : Bool) (s : FsState) :
    (merge_pdfs_by_account_fs okA okB s).2.firstTemp = false ∧
    (merge_pdfs_by_account_fs okA okB s).2.secondTemp = false ∧
    (main_fs okA okB s).firstZip = false ∧
    (main_fs okA okB s).secondZip = false ∧
    (main_fs okA okB s).outputZip = false := by
  unfold main_fs merge_pdfs_by_account_fs
  by_cases h : (okA && okB) = true <;> simp [h]

/-- C10: `merge_pdfs_by_account` is modelled as a pure, single-threaded
function, so it is deterministic: two runs on identical input archives
produce the same entry names and the same output (entries and messages)
altogether. -/
theorem C10_deterministic (f1 s1 f2 s2 : List NamedFile)
    (hf : f1 = f2) (hs : s1 = s2) :
    (merge_pdfs_by_account f1 s1).entries.map Prod.fst =
      (merge_pdfs_by_account f2 s2).entries.map Prod.fst ∧
    merge_pdfs_by_account f1 s1 = merge_pdfs_by_account f2 s2 := by
  subst hf
  subst hs
  exact ⟨rfl, rfl⟩

/-- Witness: C1 evaluated on a concrete merge — the extracted field
`f1`'s non-None `/V` value is present on the merged annotation. -/
theorem C1_field_properties_carried_witness :
    preserve_fields_and_merge_pdfs exFirst exSecond = .ok exFirstOut ∧
    dget [("/T", "f1"), ("/V", "v1"), ("/Ff", "0")] "/V" = some "v1" :=
  ⟨by decide,
   C1_field_properties_carried exFirst exSecond exFirstOut (by decide) 0 0
     ⟨"p1", some [[("/T", "f1"), ("/V", "v1")]]⟩
     ⟨"p1", some [[("/T", "f1"), ("/V", "v1"), ("/Ff", "0")]]⟩
     [[("/T", "f1"), ("/V", "v1")]]
     [[("/T", "f1"), ("/V", "v1"), ("/Ff", "0")]]
     [("/T", "f1"), ("/V", "v1")]
     [("/T", "f1"), ("/V", "v1"), ("/Ff", "0")]
     (by decide) (by decide) (by decide) (by decide) (by decide) (by decide)
     [("/T", some "f1"), ("/V", some "v1"), ("/FT", none), ("/Ff", none),
      ("/AP", none), ("/AS", none), ("/DA", none), ("/F", none), ("/Q", none),
      ("/Rect", none)]
     (by decide) "/V" "v1" (by decide)⟩

/-- Witness: C3 evaluated on a concrete merge of a one-page and a
one-page document. -/
theorem C3_pages_concatenated_witness :
    preserve_fields_and_merge_pdfs exBoth1 exBoth2 = .ok exBothOut ∧
    (exBothOut.pages.length = exBoth1.pages.length + exBoth2.pages.length ∧
     exBothOut.pages.map Page.body =
       exBoth1.pages.map Page.body ++ exBoth2.pages.map Page.body) :=
  ⟨by decide, C3_pages_concatenated exBoth1 exBoth2 exBothOut (by decide)⟩

/-- Witness: C5 evaluated on a concrete run where account `a` fails to
parse and account `b` merges fine. -/
theorem C5_error_isolated_and_loop_continues_witness :
    readAndMerge ⟨"a.pdf", 1, none⟩ ⟨"a.pdf", 1, some exSecond⟩ = .error () ∧
    Msg.mergeError "a" ∈ (merge_pdfs_by_account exFilesA exFilesB).msgs ∧
    ("a.pdf", exFirstOut) ∉ (merge_pdfs_by_account exFilesA exFilesB).entries ∧
    ("b.pdf", exFirstOut) ∈ (merge_pdfs_by_account exFilesA exFilesB).entries := by
  have H := C5_error_isolated_and_loop_continues exFilesA exFilesB "a"
    ⟨"a.pdf", 1, none⟩ ⟨"a.pdf", 1, some exSecond⟩
    (by decide) (by decide) (by decide) (by decide)
  exact ⟨by decide, H.1, H.2.1 exFirstOut,
    H.2.2 "b" ⟨"b.pdf", 1, some exFirst⟩ ⟨"b.pdf", 1, some exSecond⟩ exFirstOut
      (by decide) (by decide) (by decide) (by decide) (by decide)⟩

/-- Witness: C6 evaluated on a concrete merge where both sources define
field `n`; the second source's values are the ones applied. -/
theorem C6_second_pdf_precedence_witness :
    preserve_fields_and_merge_pdfs exBoth1 exBoth2 = .ok exBothOut ∧
    ([("/T", "n"), ("/V", "vb"), ("/DA", "d2"), ("/Ff", "0")] : Annot) =
      ensureFf (applyProps
        [("/T", some "n"), ("/V", some "vb"), ("/FT", none), ("/Ff", none),
         ("/AP", none), ("/AS", none), ("/DA", some "d2"), ("/F", none),
         ("/Q", none), ("/Rect", none)]
        [("/T", "n"), ("/V", "va")]) :=
  ⟨by decide,
   C6_second_pdf_precedence exBoth1 exBoth2 exBothOut (by decide) 0 0
     ⟨"p1", some [[("/T", "n"), ("/V", "va")]]⟩
     ⟨"p1", some [[("/T", "n"), ("/V", "vb"), ("/DA", "d2"), ("/Ff", "0")]]⟩
     [[("/T", "n"), ("/V", "va")]]
     [[("/T", "n"), ("/V", "vb"), ("/DA", "d2"), ("/Ff", "0")]]
     [("/T", "n"), ("/V", "va")]
     [("/T", "n"), ("/V", "vb"), ("/DA", "d2"), ("/Ff", "0")]
     (by decide) (by decide) (by decide) (by decide) (by decide) (by decide)
     [("/T", some "n"), ("/V", some "va"), ("/FT", none), ("/Ff", none),
      ("/AP", none), ("/AS", none), ("/DA", none), ("/F", none), ("/Q", none),
      ("/Rect", none)]
     [("/T", some "n"), ("/V", some "vb"), ("/FT", none), ("/Ff", none),
      ("/AP", none), ("/AS", none), ("/DA", some "d2"), ("/F", none),
      ("/Q", none), ("/Rect", none)]
     (by decide) (by decide)⟩

/-- Witness: C7 evaluated on a concrete merge containing a plain link
annotation with no `/T`: it passes through unchanged. -/
theorem C7_unmatched_annotation_unchanged_witness :
    preserve_fields_and_merge_pdfs exLink exSecond =
      .ok ⟨[⟨"p1", some [[("/Subtype", "/Link")]]⟩], []⟩ ∧
    ([("/Subtype", "/Link")] : Annot) = [("/Subtype", "/Link")] :=
  ⟨by decide,
   C7_unmatched_annotation_unchanged exLink exSecond
     ⟨[⟨"p1", some [[("/Subtype", "/Link")]]⟩], []⟩ (by decide) 0 0
     ⟨"p1", some [[("/Subtype", "/Link")]]⟩
     ⟨"p1", some [[("/Subtype", "/Link")]]⟩
     [[("/Subtype", "/Link")]] [[("/Subtype", "/Link")]]
     [("/Subtype", "/Link")] [("/Subtype", "/Link")]
     (by decide) (by decide) (by decide) (by decide) (by decide) (by decide)
     (by decide) (by decide) (by decide)⟩

/-- Witness: C8 evaluated on a concrete run with a zero-size first file. -/
theorem C8_empty_file_warned_and_skipped_witness :
    Msg.emptyWarning "z" ∈ (merge_pdfs_by_account exZeroA exZeroB).msgs ∧
    Msg.mergeError "z" ∉ (merge_pdfs_by_account exZeroA exZeroB).msgs ∧
    ("z.pdf", exFirstOut) ∉ (merge_pdfs_by_account exZeroA exZeroB).entries := by
  have H := C8_empty_file_warned_and_skipped exZeroA exZeroB "z"
    ⟨"z.pdf", 0, some exFirst⟩ ⟨"z.pdf", 3, some exSecond⟩
    (by decide) (by decide) (by decide)
  exact ⟨H.1, H.2.1, H.2.2 exFirstOut⟩

/-- Witness: C10 evaluated on two identical concrete runs. -/
theorem C10_deterministic_witness :
    (merge_pdfs_by_account exFilesA exFilesB).entries.map Prod.fst =
      (merge_pdfs_by_account exFilesA exFilesB).entries.map Prod.fst ∧
    merge_pdfs_by_account exFilesA exFilesB =
      merge_pdfs_by_account exFilesA exFilesB :=
  C10_deterministic exFilesA exFilesB exFilesA exFilesB rfl rfl

end PdfMerger
